import Mathlib

/-!
Verification of the Contact Sync Engine of the `registration` repository.

JavaScript strings are modelled as lists of UTF-16 code units (`JSStr`), the
representation JavaScript itself uses: `String.prototype.length`,
`substring`, `split`/`join` and regular-expression character classes all
operate on code units, and every definition below is a direct transliteration
of the corresponding function in `src/services/googleContacts.js`,
`src/services/contactSaver.js`, `src/services/database.js` and
`src/services/encryption.js`.  Network calls of the Directory Client are
modelled as pure operations on an explicit directory state, and fallible
collaborators (decryption, HTTP responses, per-contact save outcomes) are
modelled as `Option`/oracle parameters.
-/

/-- A JavaScript string: a list of UTF-16 code units. -/
abbrev JSStr := List Nat

/-- `isPre sep s` is true when `sep` is a leading block of `s`
(code-unit-exact substring match at the start). -/
def isPre : JSStr → JSStr → Bool
  | [], _ => true
  | _ :: _, [] => false
  | a :: as, b :: bs => decide (a = b) && isPre as bs

/-- `removeSub sep s` removes every non-overlapping occurrence of `sep` from
`s`, scanning left to right and continuing after each match: the semantics of
JavaScript `s.split(sep).join('')` for a non-empty `sep`. -/
def removeSub (sep : JSStr) (s : JSStr) : JSStr :=
  match s with
  | [] => []
  | c :: rest =>
    if h : 0 < sep.length ∧ isPre sep (c :: rest) = true then
      removeSub sep (List.drop sep.length (c :: rest))
    else
      c :: removeSub sep rest
termination_by s.length
decreasing_by
  · simp only [List.length_drop, List.length_cons]
    omega
  · simp

/-- The fixed denylist `GoogleContactsService.CHARS_TO_REMOVE`, each entry as
its UTF-16 code-unit sequence, in source order. -/
def charsToRemove : List (List Nat) :=
  [[61],
  [42],
  [44],
  [8226],
  [176],
  [174, 65039],
  [62],
  [60],
  [126],
  [64],
  [35],
  [36],
  [37],
  [94],
  [8362],
  [123],
  [125],
  [91],
  [93],
  [43],
  [9671],
  [9733],
  [9734],
  [9825],
  [9884, 65039],
  [9889, 65039],
  [55356, 56814, 55356, 56817],
  [10084, 65039],
  [55357, 56860],
  [55357, 56470],
  [9992, 65039],
  [9996],
  [10024],
  [10084],
  [10084, 65039, 8205, 55357, 56613],
  [55357, 56475],
  [55357, 56613],
  [55356, 56527],
  [55356, 57098],
  [9876, 65039],
  [55357, 56740],
  [55356, 57111],
  [55357, 56443],
  [55356, 57137],
  [55356, 57143],
  [55356, 57144],
  [55356, 57148],
  [55356, 57145],
  [63],
  [55356, 57151],
  [55356, 57153],
  [55356, 57167],
  [55356, 57170],
  [55356, 57190],
  [55358, 56589],
  [55356, 57207],
  [55356, 57216],
  [55356, 57239, 65039],
  [55358, 56596],
  [55356, 57260],
  [55356, 57293],
  [55356, 57313],
  [55357, 56474],
  [55357, 56836],
  [55357, 56446],
  [55357, 56401],
  [38],
  [33],
  [124],
  [95],
  [59],
  [96],
  [92],
  [9]]

/-- One pass of `cleaned.replace(/[\r\n]+/g, ' ')`: each maximal run of CR/LF
units becomes a single space.  The boolean records whether the previous unit
was part of a newline run. -/
def replaceNewlinesGo : Bool → JSStr → JSStr
  | _, [] => []
  | inRun, c :: rest =>
    if c = 13 ∨ c = 10 then
      if inRun then replaceNewlinesGo true rest
      else 32 :: replaceNewlinesGo true rest
    else c :: replaceNewlinesGo false rest

def replaceNewlines (s : JSStr) : JSStr := replaceNewlinesGo false s

/-- The `for (const char of CHARS_TO_REMOVE) cleaned = cleaned.split(char).join('')`
loop. -/
def removeListed (s : JSStr) : JSStr :=
  charsToRemove.foldl (fun acc e => removeSub e acc) s

/-- The `-me` suffix removal (regex anchored at the end, flags g and i):
case-insensitively drop a trailing `-me`.  Being anchored, at most one
occurrence is removed. -/
def stripDashMe (s : JSStr) : JSStr :=
  match s.reverse with
  | e :: m :: d :: rest =>
    if (e = 101 ∨ e = 69) ∧ (m = 109 ∨ m = 77) ∧ d = 45 then rest.reverse else s
  | _ => s

def isDigitU (c : Nat) : Bool := decide (48 ≤ c ∧ c ≤ 57)

/-- The JavaScript `\s` class (also the set trimmed by `String.prototype.trim`). -/
def isJsWs (c : Nat) : Bool :=
  decide (c = 9 ∨ c = 10 ∨ c = 11 ∨ c = 12 ∨ c = 13 ∨ c = 32 ∨ c = 160 ∨
    c = 5760 ∨ (8192 ≤ c ∧ c ≤ 8202) ∨ c = 8232 ∨ c = 8233 ∨ c = 8239 ∨
    c = 8287 ∨ c = 12288 ∨ c = 65279)

/-- The class `[\.\-_״"'\s]` of `replace(/^[\.\-_״"'\s]+/, '')`. -/
def isJunkLead (c : Nat) : Bool :=
  decide (c = 46 ∨ c = 45 ∨ c = 95 ∨ c = 1524 ∨ c = 34 ∨ c = 39) || isJsWs c

/-- The class `[\.\-_״"'\s\|!]` of `replace(/[\.\-_״"'\s\|!]+$/, '')`. -/
def isJunkTrail (c : Nat) : Bool := isJunkLead c || decide (c = 124 ∨ c = 33)

def stripLeadingDigits (s : JSStr) : JSStr := s.dropWhile isDigitU

def stripLeadingJunk (s : JSStr) : JSStr := s.dropWhile isJunkLead

def stripTrailingJunk (s : JSStr) : JSStr := (s.reverse.dropWhile isJunkTrail).reverse

def removeParens (s : JSStr) : JSStr := s.filter (fun c => decide (¬(c = 40 ∨ c = 41)))

/-- State for `replace(/\s{2,}/g, ' ')`: no current whitespace run, a run of
exactly one unit `c`, or a run of two or more units. -/
inductive WsRun
  | noRun
  | oneWs (c : Nat)
  | manyWs

def wsFlush : WsRun → JSStr
  | .noRun => []
  | .oneWs c => [c]
  | .manyWs => [32]

def wsStep : WsRun → Nat → WsRun
  | .noRun, c => .oneWs c
  | .oneWs _, _ => .manyWs
  | .manyWs, _ => .manyWs

/-- `replace(/\s{2,}/g, ' ')`: a run of two or more whitespace units becomes a
single space; a lone whitespace unit is kept as is. -/
def collapseWsGo : WsRun → JSStr → JSStr
  | st, [] => wsFlush st
  | st, c :: rest =>
    if isJsWs c then collapseWsGo (wsStep st c) rest
    else wsFlush st ++ c :: collapseWsGo .noRun rest

def collapseWs (s : JSStr) : JSStr := collapseWsGo .noRun s

def isDotDash (c : Nat) : Bool := decide (c = 46 ∨ c = 45)

/-- State for `replace(/([.\-]){2,}/g, '$1')`; `$1` is the last repetition of
the capture group, i.e. the last unit of the matched run. -/
inductive DotRun
  | noDot
  | oneDot (c : Nat)
  | manyDot (lastc : Nat)

def dotFlush : DotRun → JSStr
  | .noDot => []
  | .oneDot c => [c]
  | .manyDot l => [l]

def dotStep : DotRun → Nat → DotRun
  | .noDot, c => .oneDot c
  | .oneDot _, c => .manyDot c
  | .manyDot _, c => .manyDot c

/-- `replace(/([.\-]){2,}/g, '$1')`: each maximal run (length at least two) of
`.`/`-` units collapses to the run's final unit. -/
def collapseDotsGo : DotRun → JSStr → JSStr
  | st, [] => dotFlush st
  | st, c :: rest =>
    if isDotDash c then collapseDotsGo (dotStep st c) rest
    else dotFlush st ++ c :: collapseDotsGo .noDot rest

def collapseDots (s : JSStr) : JSStr := collapseDotsGo .noDot s

/-- `String.prototype.trim`. -/
def trimWs (s : JSStr) : JSStr := ((s.dropWhile isJsWs).reverse.dropWhile isJsWs).reverse

/-- `if (cleaned.length > 35) cleaned = cleaned.substring(0, 35).trim();` -/
def capStep (s : JSStr) : JSStr := if 35 < s.length then trimWs (s.take 35) else s

/-- The class `[a-zA-Zא-ת]` of the validity test. -/
def isLetterU (c : Nat) : Bool :=
  decide ((65 ≤ c ∧ c ≤ 90) ∨ (97 ≤ c ∧ c ≤ 122) ∨ (1488 ≤ c ∧ c ≤ 1514))

/-- `/[a-zA-Zא-ת]{2,}/.test cleaned`: some two adjacent units are both
Latin or Hebrew letters. -/
def hasTwoLetters : JSStr → Bool
  | a :: b :: rest => (isLetterU a && isLetterU b) || hasTwoLetters (b :: rest)
  | _ => false

/-- The whole cleanup pipeline of `sanitizeName`, in source order, from the
newline replacement through the 35-unit cap. -/
def cleanPipeline (name : JSStr) : JSStr :=
  capStep (trimWs (collapseDots (collapseWs (removeParens (stripTrailingJunk
    (stripLeadingJunk (stripLeadingDigits (stripDashMe (removeListed
    (replaceNewlines name))))))))))

/-- The default `defaultName` parameter of `sanitizeName` (and of
`saveContactWithLabel`): the Hebrew word for "viewer". -/
def defaultContactName : JSStr := [1510, 1493, 1508, 1492]

/-- `sanitizeName` before the date suffix is appended: the fallback for an
empty input, the cleanup pipeline, and the two-consecutive-letters /
minimum-length validation with fallback. -/
def sanitizeBase (defaultName name : JSStr) : JSStr :=
  if name = [] then defaultName
  else
    let cleaned := cleanPipeline name
    if hasTwoLetters cleaned = false ∨ cleaned.length < 2 then defaultName
    else cleaned

/-- `GoogleContactsService.sanitizeName`, with the current `MM/YY` date suffix
as an explicit parameter. -/
def sanitizeName (dateSuffix defaultName name : JSStr) : JSStr :=
  sanitizeBase defaultName name ++ [32] ++ dateSuffix

/-- Decimal digit units of `n`, as JavaScript template interpolation renders a
number. -/
def natUnits (n : Nat) : JSStr := (Nat.toDigits 10 n).map Char.toNat

/-- The candidate name for attempt `n`: the template rendering the base name
followed by the counter in parentheses. -/
def candidateName (base : JSStr) (n : Nat) : JSStr := base ++ [32, 40] ++ natUnits n ++ [41]

/-- `existingNames.some(n => n === s)`: exact string equality against the
search results. -/
def nameTaken (existingNames : List JSStr) (s : JSStr) : Bool :=
  existingNames.any (fun t => decide (t = s))

/-- The while loop of `generateUniqueName`: on a collision increment the
counter, rebuild the candidate, and break out once the counter exceeds the
safety limit of 1000 (returning the last candidate unchecked). -/
def generateUniqueNameGo (existingNames : List JSStr) (base : JSStr)
    (counter : Nat) (uniqueName : JSStr) : JSStr :=
  if nameTaken existingNames uniqueName then
    let c := counter + 1
    let u := candidateName base c
    if 1000 < c then u else generateUniqueNameGo existingNames base c u
  else uniqueName
termination_by 1001 - counter
decreasing_by omega

/-- `GoogleContactsService.generateUniqueName`, taking the list of names the
duplicate search returned as input. -/
def generateUniqueName (existingNames : List JSStr) (baseName : JSStr) : JSStr :=
  if nameTaken existingNames baseName = false then baseName
  else generateUniqueNameGo existingNames baseName 1 (candidateName baseName 1)

/-- One `nameObj` of a person returned by the name search. -/
structure NameObj where
  displayName : Option JSStr
  givenName : Option JSStr
deriving DecidableEq

/-- A person as the name search returns it: its list of name objects. -/
structure PersonNames where
  names : List NameObj
deriving DecidableEq

/-- An HTTP interaction outcome: a parsed body, or an error with an optional
status code. -/
inductive HttpOutcome (α : Type) where
  | ok (a : α)
  | err (status : Option Nat)
deriving DecidableEq

/-- The extraction loop of `searchContactsByName`: for every result push its
`displayName` and then its `givenName` when present. -/
def extractNames (results : List PersonNames) : List JSStr :=
  results.flatMap (fun p => p.names.flatMap (fun n => n.displayName.toList ++ n.givenName.toList))

/-- `GoogleContactsService.searchContactsByName` as a function of the HTTP
outcome: names on success, the empty list on a 404, and the empty list on any
other error as well (logged, not propagated, so saving is never blocked). -/
def searchContactsByName (resp : HttpOutcome (List PersonNames)) : List JSStr :=
  match resp with
  | .ok results => extractNames results
  | .err status => if status = some 404 then [] else []

/-- `phone.replace(/[^0-9]/g, '')`. -/
def digitsOnly (s : JSStr) : JSStr := s.filter (fun c => isDigitU c)

/-- `s.slice(-9)`: the last nine units (the whole string when shorter). -/
def last9 (s : JSStr) : JSStr := s.drop (s.length - 9)

/-- `hay.includes(needle)`: code-unit-exact substring containment. -/
def containsSub (hay needle : JSStr) : Bool :=
  if isPre needle hay then true
  else
    match hay with
    | [] => false
    | _ :: t => containsSub t needle

/-- A contact in the external directory: resource id, display name, phone
field values, and contact-group memberships. -/
structure DPerson where
  rid : Nat
  pname : JSStr
  phones : List JSStr
  memberOf : List Nat
deriving DecidableEq

/-- A contact group (label) in the external directory. -/
structure DGroup where
  rid : Nat
  gname : JSStr
  formattedName : JSStr
deriving DecidableEq

/-- The state of one external directory account. -/
structure Directory where
  groups : List DGroup
  persons : List DPerson
  nextId : Nat
deriving DecidableEq

/-- The modelled search semantics of the phone-search endpoint: a person is
returned for query `q` when some phone field's digits contain `q`.  The
`pageSize` truncation of the real endpoint is not modelled. -/
def personMatchesQ (q : JSStr) (p : DPerson) : Bool :=
  p.phones.any (fun ph => containsSub (digitsOnly ph) q)

/-- The client-side filter of `searchContactByPhone`: some phone field agrees
with the query on the last nine digits. -/
def personMatches9 (q : JSStr) (p : DPerson) : Bool :=
  p.phones.any (fun ph => decide (last9 (digitsOnly ph) = last9 q))

/-- `GoogleContactsService.searchContactByPhone`: query the full digit string,
fall back to the last nine digits when that returns nothing and the number is
longer than nine digits, then return the first result whose last nine digits
match. -/
def searchContactByPhone (d : Directory) (phone : JSStr) : Option DPerson :=
  let nq := digitsOnly phone
  let res1 := d.persons.filter (personMatchesQ nq)
  let results :=
    if res1 = [] ∧ 9 < nq.length then d.persons.filter (personMatchesQ (last9 nq))
    else res1
  results.find? (personMatches9 nq)

/-- `GoogleContactsService.getOrCreateContactGroup`: find a group whose `name`
or `formattedName` equals the requested name, else create one. -/
def getOrCreateContactGroup (d : Directory) (gname : JSStr) : DGroup × Directory :=
  match d.groups.find? (fun g => decide (g.gname = gname) || decide (g.formattedName = gname)) with
  | some g => (g, d)
  | none =>
    let g : DGroup := ⟨d.nextId, gname, gname⟩
    (g, { d with groups := d.groups ++ [g], nextId := d.nextId + 1 })

/-- `GoogleContactsService.addContactToGroup`: add the group to the contact's
memberships. -/
def addContactToGroup (d : Directory) (pid gid : Nat) : Directory :=
  { d with persons := d.persons.map (fun p =>
      if p.rid = pid then { p with memberOf := gid :: p.memberOf } else p) }

/-- `GoogleContactsService.createContact`: create a contact with one mobile
phone field and, when given, an initial group membership. -/
def createContact (d : Directory) (nm phone : JSStr) (gid : Option Nat) : DPerson × Directory :=
  let p : DPerson := ⟨d.nextId, nm, [phone], gid.toList⟩
  (p, { d with persons := d.persons ++ [p], nextId := d.nextId + 1 })

/-- The name-search endpoint against a directory, for the duplicate-name
check: names of persons whose name contains the query. -/
def searchNamesInDirectory (d : Directory) (q : JSStr) : List JSStr :=
  (d.persons.filter (fun p => containsSub p.pname q)).map (fun p => p.pname)

/-- `existingContact.memberships?.some(m => ... === groupResourceName)`. -/
def isMemberB (p : DPerson) (gid : Nat) : Bool := p.memberOf.any (fun g => decide (g = gid))

/-- `GoogleContactsService.formatLabelName`: underscores become spaces and the
current `MM/YY` suffix is appended (empty input returned unchanged). -/
def formatLabelName (dateSuffix lbl : JSStr) : JSStr :=
  if lbl = [] then []
  else (lbl.map (fun c => if c = 95 then 32 else c)) ++ [32] ++ dateSuffix

inductive SaveStatus
  | created
  | existed
deriving DecidableEq

/-- `GoogleContactsService.saveContactWithLabel` on the directory state:
ensure the label, search by phone, and either idempotently ensure membership
(returning `existed`) or sanitize + uniquify the name and create the contact
attached to the label (returning `created`). -/
def saveContactWithLabel (dateSuffix : JSStr) (d : Directory)
    (nm phone lbl defaultName : JSStr) : (SaveStatus × Option DPerson) × Directory :=
  let fl := formatLabelName dateSuffix lbl
  let gd := getOrCreateContactGroup d fl
  let g := gd.1
  let d1 := gd.2
  match searchContactByPhone d1 phone with
  | some p =>
    let d2 := if isMemberB p g.rid then d1 else addContactToGroup d1 p.rid g.rid
    ((.existed, some p), d2)
  | none =>
    let sName := sanitizeName dateSuffix defaultName nm
    let uName := generateUniqueName (searchNamesInDirectory d1 sName) sName
    let pd := createContact d1 uName phone (some g.rid)
    ((.created, some pd.1), pd.2)

/-- The persisted error taxonomy of the sync engine. -/
inductive ErrKind
  | rateLimitTemporary
  | contactLimitExceeded
  | tokenInvalid
  | permissionDenied
  | unknownError
  | contactLimitMax
deriving DecidableEq

/-- The `criticalErrors` list of `sendErrorNotification`. -/
def isCriticalError (k : ErrKind) : Bool :=
  match k with
  | .tokenInvalid | .permissionDenied | .contactLimitExceeded | .contactLimitMax => true
  | _ => false

/-- The error/notification columns of one customer's `cs_customers` row. -/
structure CsRow where
  lastError : Option JSStr
  lastErrorType : Option ErrKind
  errorNotified : Bool
  hasValidTokens : Bool
deriving DecidableEq

/-- The `cs_customers` row of one customer; `none` when no row exists yet. -/
abbrev CsState := Option CsRow

/-- `DatabaseService.updateCustomerError`: upsert the row with the new error
kind, message and notified flag; token validity is cleared for token or
permission errors. -/
def updateCustomerError (st : CsState) (k : ErrKind) (msg : JSStr) (notified : Bool) : CsState :=
  some { lastError := some msg, lastErrorType := some k, errorNotified := notified,
         hasValidTokens := !(decide (k = .tokenInvalid) || decide (k = .permissionDenied)) }

/-- `DatabaseService.clearCustomerError`: null out the error columns, reset
the notified flag, mark tokens valid (an update, so a no-op without a row). -/
def clearCustomerError (st : CsState) : CsState :=
  match st with
  | some _ => some { lastError := none, lastErrorType := none, errorNotified := false,
                     hasValidTokens := true }
  | none => none

/-- The `cs_customers` update that the success branches (`saved` / `existed`)
of `DatabaseService.logSaveAttempt` perform: null out `last_error` and
`last_error_type` and set `has_valid_tokens`; `error_notified` is NOT touched
by this statement. -/
def logSaveAttemptSuccess (st : CsState) : CsState :=
  match st with
  | some r => some { r with lastError := none, lastErrorType := none, hasValidTokens := true }
  | none => none

/-- `DatabaseService.getCustomerErrorState`. -/
def getCustomerErrorState (st : CsState) : CsState := st

/-- The `alreadyNotified` test of `sendErrorNotification`: a row exists, its
stored kind equals the incoming kind, and its notified flag is set. -/
def alreadyNotifiedCheck (st : CsState) (k : ErrKind) : Bool :=
  match st with
  | some r => decide (r.lastErrorType = some k) && r.errorNotified
  | none => false

/-- `ContactSaverService.sendErrorNotification` as a transition on the stored
row, returning the number of Notifier (WhatsApp) deliveries attempted:
non-critical kinds only update the row with `notified = false`; critical kinds
are deduplicated against the stored (kind, notified) pair and otherwise mark
the row notified and attempt exactly one delivery. -/
def sendErrorNotification (st : CsState) (k : ErrKind) (msg : JSStr) : CsState × Nat :=
  if isCriticalError k = false then (updateCustomerError st k msg false, 0)
  else if alreadyNotifiedCheck st k then (st, 0)
  else (updateCustomerError st k msg true, 1)

/-- One Google account of a customer, with the contact count its capacity
query reports (`none` when the count could not be determined). -/
structure GAccount where
  email : Nat
  contactCount : Option Nat
deriving DecidableEq

/-- A Directory Client call made on behalf of a customer during a run. -/
inductive DirCall
  | capacityQuery (email : Nat)
  | existenceSearch (table contact : Nat)
  | saveAttempt (table contact : Nat)
deriving DecidableEq

/-- The typed errors `saveContactWithLabel` can throw. -/
inductive SaveErr
  | rateLimit (retryAfter : Nat)
  | contactLimit
  | tokenInvalid
  | permissionDenied
  | unknown
deriving DecidableEq

/-- The outcome of processing one pending contact: found in some other
account by the cross-account existence check, saved (created or existed) by
the best account, or failed with a typed error. -/
inductive ContactOutcome
  | foundInOther
  | saveOk (created : Bool)
  | saveFail (e : SaveErr)
deriving DecidableEq

/-- One campaign table: its name and its pending contacts in order. -/
structure CTable where
  tname : Nat
  contacts : List Nat
deriving DecidableEq

/-- The per-customer loop state of `processCustomer`: the Directory Client
call trace, the in-memory rate-limit resume timestamp, the
`sendErrorNotification` invocations, and the counters. -/
structure LoopSt where
  calls : List DirCall
  resumeAt : Option Nat
  notifs : List ErrKind
  savedCount : Nat
  existedCount : Nat
  errorCount : Nat
deriving DecidableEq

/-- The per-contact loop over one table, with the `break` semantics of the
source: rate-limit and critical errors stop the current table's contacts,
unknown errors continue. -/
def runTable (outcome : Nat → Nat → ContactOutcome) (now : Nat) (tname : Nat) :
    List Nat → LoopSt → LoopSt
  | [], st => st
  | c :: rest, st =>
    let st1 : LoopSt := { st with calls := st.calls ++ [.existenceSearch tname c] }
    match outcome tname c with
    | .foundInOther =>
      runTable outcome now tname rest { st1 with existedCount := st1.existedCount + 1 }
    | .saveOk created =>
      let st2 : LoopSt := { st1 with calls := st1.calls ++ [.saveAttempt tname c] }
      runTable outcome now tname rest
        (if created then { st2 with savedCount := st2.savedCount + 1 }
         else { st2 with existedCount := st2.existedCount + 1 })
    | .saveFail e =>
      let st2 : LoopSt :=
        { st1 with
          calls := st1.calls ++ [.saveAttempt tname c]
          errorCount := st1.errorCount + 1 }
      match e with
      | .rateLimit retryAfter =>
        let waitMs := (if retryAfter = 0 then 60 else retryAfter) * 1000
        { st2 with
          resumeAt := some (now + waitMs)
          notifs := st2.notifs ++ [.rateLimitTemporary] }
      | .contactLimit => { st2 with notifs := st2.notifs ++ [.contactLimitExceeded] }
      | .tokenInvalid => { st2 with notifs := st2.notifs ++ [.tokenInvalid] }
      | .permissionDenied => { st2 with notifs := st2.notifs ++ [.permissionDenied] }
      | .unknown => runTable outcome now tname rest st2

/-- The capacity loop of `processCustomer`: sum the known counts, and record
whether any account is known to be under 25,000 (`allAccountsFull` starts
`true` and is only cleared by a known count under the ceiling). -/
def capacityScan (counts : List (Option Nat)) : Nat × Bool :=
  counts.foldl
    (fun acc c =>
      match c with
      | some n => (acc.1 + n, if n < 25000 then false else acc.2)
      | none => acc)
    (0, true)

/-- `ContactSaverService.getBestAccountForSaving`: the account with the least
known contact count under 25,000, when one exists. -/
def getBestAccountForSaving (accounts : List GAccount) : Option GAccount :=
  (accounts.foldl
    (fun acc a =>
      match a.contactCount with
      | some n =>
        match acc with
        | some pair => if n < pair.2 ∧ n < 25000 then some (a, n) else acc
        | none => if n < 25000 then some (a, n) else acc
      | none => acc)
    none).map (fun x => x.1)

/-- The result statuses `processCustomer` returns. -/
inductive PCStatus
  | rateLimited (resumeAt : Nat)
  | noTokens
  | contactLimitMax (contactCount : Nat)
  | noValidAccount
  | processed
deriving DecidableEq

/-- The truthiness test `resumeTime && Date.now() < resumeTime` (a stored `0`
is falsy in JavaScript). -/
def rateLimitActive (rl : Option Nat) (now : Nat) : Bool :=
  match rl with
  | some t => !(decide (t = 0)) && decide (now < t)
  | none => false

def initLoopSt (rl : Option Nat) (calls : List DirCall) (notifs : List ErrKind) : LoopSt :=
  ⟨calls, rl, notifs, 0, 0, 0⟩

/-- `ContactSaverService.processCustomer`: the rate-limit guard, the account
load, the capacity check with its `CONTACT_LIMIT_MAX` notification, the best
account selection (which queries capacity a second time), and the
table/contact loops. -/
def processCustomer (now : Nat) (rl : Option Nat) (accounts : List GAccount)
    (outcome : Nat → Nat → ContactOutcome) (tables : List CTable) : PCStatus × LoopSt :=
  if rateLimitActive rl now then ((.rateLimited (rl.getD 0)), initLoopSt rl [] [])
  else if accounts = [] then (.noTokens, initLoopSt rl [] [])
  else
    let capCalls := accounts.map (fun a => DirCall.capacityQuery a.email)
    let scan := capacityScan (accounts.map (fun a => a.contactCount))
    if scan.2 = true ∧ 0 < accounts.length then
      (.contactLimitMax scan.1, initLoopSt rl capCalls [.contactLimitMax])
    else
      match getBestAccountForSaving accounts with
      | none => (.noValidAccount, initLoopSt rl (capCalls ++ capCalls) [])
      | some _ =>
        let st0 := initLoopSt rl (capCalls ++ capCalls) []
        (.processed, tables.foldl (fun st t => runTable outcome now t.tname t.contacts st) st0)

/-- The mutable state `ContactSaverService.run` touches: the single-flight
flag and an abstract database/collaborator state. -/
structure RunSt where
  isRunning : Bool
  dbState : Nat
deriving DecidableEq

/-- How an invocation of `run` ended: skipped by the single-flight guard,
completed, or completed after catching an internal error (which is logged and
never rethrown). -/
inductive RunOutcome
  | skipped
  | completed
  | caughtError (e : Nat)
deriving DecidableEq

/-- `ContactSaverService.run`: the single-flight guard, `initialize` (which
swallows its own errors) before the flag is set, then the try/catch/finally
body — the body may mutate the state and throw; the error is caught and the
flag is reset in `finally` on every path. -/
def run (s : RunSt) (initStep : Nat → Nat) (body : Nat → Nat × Option Nat) : RunSt × RunOutcome :=
  if s.isRunning then (s, .skipped)
  else
    let d1 := initStep s.dbState
    let br := body d1
    match br.2 with
    | none => ({ isRunning := false, dbState := br.1 }, .completed)
    | some e => ({ isRunning := false, dbState := br.1 }, .caughtError e)

/-- The token fallback `decrypted || stored` applied to one stored credential
field: when decryption fails (or yields the empty string, falsy in
JavaScript), the stored value itself is kept. -/
def decryptTokenField (decrypt : JSStr → Option JSStr) (stored : JSStr) : JSStr :=
  if stored = [] then stored
  else
    match decrypt stored with
    | some dec => if dec = [] then stored else dec
    | none => stored

/-- One row of the customers table holding a customer's account credentials
(the SQL already filters rows with non-null tokens). -/
structure AccountRow where
  phone : Nat
  email : Nat
  accessToken : JSStr
  refreshToken : JSStr
deriving DecidableEq

/-- `ContactSaverService.getAllCustomerAccounts`: decrypt both credential
fields of every row, falling back to the stored value when decryption
fails. -/
def getAllCustomerAccounts (decrypt : JSStr → Option JSStr) (rows : List AccountRow) : List AccountRow :=
  rows.map (fun r =>
    { r with accessToken := decryptTokenField decrypt r.accessToken,
             refreshToken := decryptTokenField decrypt r.refreshToken })

/-- `ContactSaverService.createGoogleServices`: the access token each
constructed Directory Client uses is the account's (post-fallback) token
field. -/
def serviceAccessToken (a : AccountRow) : JSStr := a.accessToken

/-- Outcomes whose error handler executes `break` in the contact loop:
rate-limit and the three critical error kinds. -/
def isBreakingOutcome (o : ContactOutcome) : Bool :=
  match o with
  | .saveFail (.rateLimit _) => true
  | .saveFail .contactLimit => true
  | .saveFail .tokenInvalid => true
  | .saveFail .permissionDenied => true
  | _ => false

/-- Modelled from the spec for comparison (C2): an account "reports a known
contact count ≥ 25,000". -/
def accountKnownFull (a : GAccount) : Prop :=
  match a.contactCount with
  | some n => 25000 ≤ n
  | none => False

/-- Modelled from the spec for comparison (C2): "every account reports a
known contact count ≥ 25,000" — an account whose capacity query returned
null is unknown and does not count toward it. -/
def specEveryAccountFull (accounts : List GAccount) : Prop :=
  accounts ≠ [] ∧ ∀ a ∈ accounts, accountKnownFull a

theorem mem_removeSub (sep : JSStr) (s : JSStr) (x : Nat) (hx : x ∈ removeSub sep s) : x ∈ s := by
  induction s using removeSub.induct sep with
  | case1 => simpa [removeSub] using hx
  | case2 c rest h ih =>
    rw [removeSub, dif_pos h] at hx
    exact List.mem_of_mem_drop (ih hx)
  | case3 c rest h ih =>
    rw [removeSub, dif_neg h] at hx
    rcases List.mem_cons.mp hx with h1 | h2
    · exact List.mem_cons.mpr (Or.inl h1)
    · exact List.mem_cons.mpr (Or.inr (ih h2))

theorem not_mem_removeSub_single (c : Nat) (s : JSStr) : c ∉ removeSub [c] s := by
  induction s using removeSub.induct [c] with
  | case1 => simp [removeSub]
  | case2 a rest h ih => rw [removeSub, dif_pos h]; exact ih
  | case3 a rest h ih =>
    rw [removeSub, dif_neg h]
    intro hmem
    rcases List.mem_cons.mp hmem with h1 | h2
    · apply h
      constructor
      · simp
      · simp [isPre, h1]
    · exact ih h2

theorem not_mem_foldl_removeSub (entries : List JSStr) (s : JSStr) (c : Nat) (hc : c ∉ s) :
    c ∉ entries.foldl (fun acc e => removeSub e acc) s := by
  induction entries generalizing s with
  | nil => simpa using hc
  | cons e rest ih =>
    simp only [List.foldl_cons]
    exact ih (removeSub e s) (fun hmem => hc (mem_removeSub e s c hmem))

theorem not_mem_foldl_removeSub_of_entry (entries : List JSStr) (s : JSStr) (c : Nat)
    (hc : [c] ∈ entries) : c ∉ entries.foldl (fun acc e => removeSub e acc) s := by
  induction entries generalizing s with
  | nil => simp at hc
  | cons e rest ih =>
    simp only [List.foldl_cons]
    rcases List.mem_cons.mp hc with h1 | h2
    · subst h1
      exact not_mem_foldl_removeSub rest (removeSub [c] s) c (not_mem_removeSub_single c s)
    · exact ih (removeSub e s) h2

theorem not_mem_removeListed (s : JSStr) (c : Nat) (hc : [c] ∈ charsToRemove) :
    c ∉ removeListed s :=
  not_mem_foldl_removeSub_of_entry charsToRemove s c hc

theorem mem_stripDashMe (s : JSStr) (x : Nat) (hx : x ∈ stripDashMe s) : x ∈ s := by
  unfold stripDashMe at hx
  split at hx
  case h_1 e m d rest heq =>
    split at hx
    · have h1 : x ∈ s.reverse := by
        rw [heq]
        simp only [List.mem_cons]
        right; right; right
        simpa using hx
      simpa using h1
    · exact hx
  case h_2 => exact hx

theorem mem_dropWhileU (p : Nat → Bool) (s : JSStr) (x : Nat) (hx : x ∈ s.dropWhile p) : x ∈ s :=
  (List.dropWhile_sublist p).mem hx

theorem mem_stripTrailingJunk (s : JSStr) (x : Nat) (hx : x ∈ stripTrailingJunk s) : x ∈ s := by
  unfold stripTrailingJunk at hx
  rw [List.mem_reverse] at hx
  have := mem_dropWhileU isJunkTrail s.reverse x hx
  simpa using this

theorem mem_removeParens (s : JSStr) (x : Nat) (hx : x ∈ removeParens s) : x ∈ s :=
  (List.mem_filter.mp hx).1

theorem mem_wsFlush (st : WsRun) (x : Nat) (hx : x ∈ wsFlush st) :
    x = 32 ∨ (∃ c, st = .oneWs c ∧ x = c) := by
  cases st with
  | noRun => simp [wsFlush] at hx
  | oneWs c => right; exact ⟨c, rfl, by simpa [wsFlush] using hx⟩
  | manyWs => left; simpa [wsFlush] using hx

theorem mem_collapseWsGo (s : JSStr) : ∀ (st : WsRun) (x : Nat), x ∈ collapseWsGo st s →
    x = 32 ∨ x ∈ s ∨ (∃ c, st = .oneWs c ∧ x = c) := by
  induction s with
  | nil =>
    intro st x hx
    rcases mem_wsFlush st x (by simpa [collapseWsGo] using hx) with h | h
    · exact Or.inl h
    · exact Or.inr (Or.inr h)
  | cons c rest ih =>
    intro st x hx
    rw [collapseWsGo] at hx
    by_cases hws : isJsWs c = true
    · rw [if_pos hws] at hx
      rcases ih (wsStep st c) x hx with h | h | ⟨a, ha, hxa⟩
      · exact Or.inl h
      · exact Or.inr (Or.inl (List.mem_cons.mpr (Or.inr h)))
      · cases st with
        | noRun =>
          simp only [wsStep] at ha
          cases ha
          exact Or.inr (Or.inl (by simp [hxa]))
        | oneWs b => simp [wsStep] at ha
        | manyWs => simp [wsStep] at ha
    · rw [if_neg hws] at hx
      rcases List.mem_append.mp hx with h | h
      · rcases mem_wsFlush st x h with h1 | h1
        · exact Or.inl h1
        · exact Or.inr (Or.inr h1)
      · rcases List.mem_cons.mp h with h1 | h1
        · exact Or.inr (Or.inl (List.mem_cons.mpr (Or.inl h1)))
        · rcases ih .noRun x h1 with h2 | h2 | ⟨a, ha, _⟩
          · exact Or.inl h2
          · exact Or.inr (Or.inl (List.mem_cons.mpr (Or.inr h2)))
          · simp at ha

theorem mem_collapseWs (s : JSStr) (x : Nat) (hx : x ∈ collapseWs s) : x = 32 ∨ x ∈ s := by
  rcases mem_collapseWsGo s .noRun x hx with h | h | ⟨a, ha, _⟩
  · exact Or.inl h
  · exact Or.inr h
  · simp at ha

theorem mem_dotFlush (st : DotRun) (x : Nat) (hx : x ∈ dotFlush st) :
    (∃ c, st = .oneDot c ∧ x = c) ∨ (∃ c, st = .manyDot c ∧ x = c) := by
  cases st with
  | noDot => simp [dotFlush] at hx
  | oneDot c => left; exact ⟨c, rfl, by simpa [dotFlush] using hx⟩
  | manyDot c => right; exact ⟨c, rfl, by simpa [dotFlush] using hx⟩

theorem mem_collapseDotsGo (s : JSStr) : ∀ (st : DotRun) (x : Nat), x ∈ collapseDotsGo st s →
    x ∈ s ∨ (∃ c, st = .oneDot c ∧ x = c) ∨ (∃ c, st = .manyDot c ∧ x = c) := by
  induction s with
  | nil =>
    intro st x hx
    rcases mem_dotFlush st x (by simpa [collapseDotsGo] using hx) with h | h
    · exact Or.inr (Or.inl h)
    · exact Or.inr (Or.inr h)
  | cons c rest ih =>
    intro st x hx
    rw [collapseDotsGo] at hx
    by_cases hdc : isDotDash c = true
    · rw [if_pos hdc] at hx
      rcases ih (dotStep st c) x hx with h | ⟨a, ha, hxa⟩ | ⟨a, ha, hxa⟩
      · exact Or.inl (List.mem_cons.mpr (Or.inr h))
      · cases st with
        | noDot =>
          simp only [dotStep] at ha
          cases ha
          exact Or.inl (by simp [hxa])
        | oneDot b => simp [dotStep] at ha
        | manyDot b => simp [dotStep] at ha
      · cases st with
        | noDot => simp [dotStep] at ha
        | oneDot b =>
          simp only [dotStep] at ha
          cases ha
          exact Or.inl (by simp [hxa])
        | manyDot b =>
          simp only [dotStep] at ha
          cases ha
          exact Or.inl (by simp [hxa])
    · rw [if_neg hdc] at hx
      rcases List.mem_append.mp hx with h | h
      · rcases mem_dotFlush st x h with h1 | h1
        · exact Or.inr (Or.inl h1)
        · exact Or.inr (Or.inr h1)
      · rcases List.mem_cons.mp h with h1 | h1
        · exact Or.inl (List.mem_cons.mpr (Or.inl h1))
        · rcases ih .noDot x h1 with h2 | ⟨a, ha, _⟩ | ⟨a, ha, _⟩
          · exact Or.inl (List.mem_cons.mpr (Or.inr h2))
          · simp at ha
          · simp at ha

theorem mem_collapseDots (s : JSStr) (x : Nat) (hx : x ∈ collapseDots s) : x ∈ s := by
  rcases mem_collapseDotsGo s .noDot x hx with h | ⟨a, ha, _⟩ | ⟨a, ha, _⟩
  · exact h
  · simp at ha
  · simp at ha

theorem mem_trimWs (s : JSStr) (x : Nat) (hx : x ∈ trimWs s) : x ∈ s := by
  unfold trimWs at hx
  rw [List.mem_reverse] at hx
  have h1 := mem_dropWhileU isJsWs (s.dropWhile isJsWs).reverse x hx
  rw [List.mem_reverse] at h1
  exact mem_dropWhileU isJsWs s x h1

theorem mem_capStep (s : JSStr) (x : Nat) (hx : x ∈ capStep s) : x ∈ s := by
  unfold capStep at hx
  by_cases hlen : 35 < s.length
  · rw [if_pos hlen] at hx
    have := mem_trimWs (s.take 35) x hx
    exact (List.take_sublist 35 s).mem this
  · rw [if_neg hlen] at hx; exact hx

theorem not_mem_cleanPipeline (name : JSStr) (c : Nat) (hc : [c] ∈ charsToRemove) :
    c ∉ cleanPipeline name := by
  intro hmem
  have hne32 : ¬(c = 32) := fun h32 => absurd (h32 ▸ hc) (by decide)
  unfold cleanPipeline at hmem
  have h1 := mem_capStep _ c hmem
  have h2 := mem_trimWs _ c h1
  have h3 := mem_collapseDots _ c h2
  rcases mem_collapseWs _ c h3 with h32 | h4
  · exact hne32 h32
  have h5 := mem_removeParens _ c h4
  have h6 := mem_stripTrailingJunk _ c h5
  have h7 := mem_dropWhileU isJunkLead _ c h6
  have h8 := mem_dropWhileU isDigitU _ c h7
  have h9 := mem_stripDashMe _ c h8
  exact not_mem_removeListed _ c hc h9

theorem trimWs_length_le (s : JSStr) : (trimWs s).length ≤ s.length := by
  unfold trimWs
  calc ((s.dropWhile isJsWs).reverse.dropWhile isJsWs).reverse.length
      = ((s.dropWhile isJsWs).reverse.dropWhile isJsWs).length := by simp
    _ ≤ (s.dropWhile isJsWs).reverse.length :=
        (List.dropWhile_sublist isJsWs).length_le
    _ = (s.dropWhile isJsWs).length := by simp
    _ ≤ s.length := (List.dropWhile_sublist isJsWs).length_le

theorem capStep_length_le (s : JSStr) : (capStep s).length ≤ 35 := by
  unfold capStep
  by_cases hlen : 35 < s.length
  · rw [if_pos hlen]
    have h1 := trimWs_length_le (s.take 35)
    have h2 : (s.take 35).length ≤ 35 := by
      simp [List.length_take]
    omega
  · rw [if_neg hlen]; omega

theorem cleanPipeline_length_le (name : JSStr) : (cleanPipeline name).length ≤ 35 :=
  capStep_length_le _

theorem defaultContactName_not_denylisted :
    ∀ x ∈ defaultContactName, [x] ∉ charsToRemove := by decide

theorem mem_of_headq {l : List Nat} {c : Nat} (h : l.head? = some c) : c ∈ l :=
  List.mem_of_mem_head? (by simp [h])

theorem mem_of_getLastq {l : List Nat} {c : Nat} (h : l.getLast? = some c) : c ∈ l := by
  rw [List.getLast?_eq_head?_reverse] at h
  have := mem_of_headq h
  simpa using this

/-- C6.  For any input string, the part of the `sanitizeName` output before
the appended `MM/YY` date suffix either contains two consecutive Latin or
Hebrew letter units or is exactly the fallback name; its length is at most 35
units; and no unit that is a single-character entry of the `CHARS_TO_REMOVE`
denylist appears at its start or its end. -/
theorem C6_sanitized_name_shape (dateSuffix name : JSStr) :
    sanitizeName dateSuffix defaultContactName name =
      sanitizeBase defaultContactName name ++ [32] ++ dateSuffix ∧
    (hasTwoLetters (sanitizeBase defaultContactName name) = true ∨
      sanitizeBase defaultContactName name = defaultContactName) ∧
    (sanitizeBase defaultContactName name).length ≤ 35 ∧
    (∀ c, [c] ∈ charsToRemove →
      (sanitizeBase defaultContactName name).head? ≠ some c ∧
      (sanitizeBase defaultContactName name).getLast? ≠ some c) := by
  refine ⟨rfl, ?_⟩
  unfold sanitizeBase
  by_cases hnil : name = []
  · rw [if_pos hnil]
    refine ⟨Or.inr rfl, by decide, ?_⟩
    intro c hc
    constructor
    · intro hh
      exact defaultContactName_not_denylisted c (mem_of_headq hh) hc
    · intro hh
      exact defaultContactName_not_denylisted c (mem_of_getLastq hh) hc
  · rw [if_neg hnil]
    by_cases hvalid : hasTwoLetters (cleanPipeline name) = false ∨ (cleanPipeline name).length < 2
    · rw [if_pos hvalid]
      refine ⟨Or.inr rfl, by decide, ?_⟩
      intro c hc
      constructor
      · intro hh
        exact defaultContactName_not_denylisted c (mem_of_headq hh) hc
      · intro hh
        exact defaultContactName_not_denylisted c (mem_of_getLastq hh) hc
    · rw [if_neg hvalid]
      push_neg at hvalid
      refine ⟨Or.inl (by simpa using hvalid.1), cleanPipeline_length_le name, ?_⟩
      intro c hc
      constructor
      · intro hh
        exact not_mem_cleanPipeline name c hc (mem_of_headq hh)
      · intro hh
        exact not_mem_cleanPipeline name c hc (mem_of_getLastq hh)

/-- Witness for C6 at a concrete input: the equals sign is a denylist entry
and the sanitized form of the string `=ab=` does not start with it. -/
theorem C6_sanitized_name_shape_witness :
    [61] ∈ charsToRemove ∧
      (sanitizeBase defaultContactName [61, 97, 98, 61]).head? ≠ some 61 :=
  ⟨by decide, ((C6_sanitized_name_shape [] [61, 97, 98, 61]).2.2.2 61 (by decide)).1⟩

theorem nameTaken_eq_true_iff (existing : List JSStr) (s : JSStr) :
    nameTaken existing s = true ↔ s ∈ existing := by
  unfold nameTaken
  rw [List.any_eq_true]
  constructor
  · rintro ⟨t, ht, hts⟩
    have hts2 : t = s := of_decide_eq_true hts
    exact hts2 ▸ ht
  · intro hs
    exact ⟨s, hs, by simp⟩

theorem generateUniqueNameGo_spec (existing : List JSStr) (base : JSStr) :
    ∀ (fuel cnt : Nat), 1001 - cnt ≤ fuel → 1 ≤ cnt → cnt ≤ 1000 →
      (∀ m, 1 ≤ m → m < cnt → candidateName base m ∈ existing) →
      ∃ n, cnt ≤ n ∧ n ≤ 1001 ∧
        generateUniqueNameGo existing base cnt (candidateName base cnt) = candidateName base n ∧
        (∀ m, 1 ≤ m → m < n → candidateName base m ∈ existing) ∧
        (candidateName base n ∈ existing → n = 1001) := by
  intro fuel
  induction fuel with
  | zero => intro cnt hf h1 h1000 _; omega
  | succ k ih =>
    intro cnt hf h1 h1000 hprev
    rw [generateUniqueNameGo]
    by_cases htaken : nameTaken existing (candidateName base cnt) = true
    · rw [if_pos htaken]
      by_cases hbig : 1000 < cnt + 1
      · rw [if_pos hbig]
        have hcnt : cnt = 1000 := by omega
        subst hcnt
        refine ⟨1001, by omega, le_refl _, rfl, ?_, fun _ => rfl⟩
        intro m hm1 hm
        by_cases hmc : m < 1000
        · exact hprev m hm1 hmc
        · have hmeq : m = 1000 := by omega
          subst hmeq
          exact (nameTaken_eq_true_iff _ _).mp htaken
      · rw [if_neg hbig]
        have hnext : ∀ m, 1 ≤ m → m < cnt + 1 → candidateName base m ∈ existing := by
          intro m hm1 hm
          by_cases hmc : m < cnt
          · exact hprev m hm1 hmc
          · have hmeq : m = cnt := by omega
            subst hmeq
            exact (nameTaken_eq_true_iff _ _).mp htaken
        obtain ⟨n, hn1, hn2, hn3, hn4, hn5⟩ := ih (cnt + 1) (by omega) (by omega) (by omega) hnext
        exact ⟨n, by omega, hn2, hn3, hn4, hn5⟩
    · rw [if_neg htaken]
      refine ⟨cnt, le_refl _, by omega, rfl, hprev, ?_⟩
      intro hmem
      exact absurd ((nameTaken_eq_true_iff _ _).mpr hmem) htaken

/-- C7.  `generateUniqueName` returns the base name unchanged when no search
result exactly equals it; otherwise it returns `base (n)` for the first free
counter `n` (every smaller counter's candidate collides), bounded by the
safety limit: `n` never exceeds 1001, on exhaustion the last candidate
`base (1001)` is returned unchecked, and the result can collide with an
existing name only when the limit was exhausted (`n = 1001`).  The function
is total, so the loop always terminates. -/
theorem C7_generateUniqueName_characterization (existing : List JSStr) (base : JSStr) :
    (base ∉ existing → generateUniqueName existing base = base) ∧
    (base ∈ existing →
      ∃ n, 1 ≤ n ∧ n ≤ 1001 ∧
        generateUniqueName existing base = candidateName base n ∧
        (∀ m, 1 ≤ m → m < n → candidateName base m ∈ existing) ∧
        (generateUniqueName existing base ∈ existing → n = 1001)) := by
  constructor
  · intro hout
    unfold generateUniqueName
    rw [if_pos]
    simp only [Bool.eq_false_iff, ne_eq]
    intro h
    exact hout ((nameTaken_eq_true_iff _ _).mp h)
  · intro hin
    have htaken : nameTaken existing base = true := (nameTaken_eq_true_iff _ _).mpr hin
    unfold generateUniqueName
    rw [if_neg (by simp [htaken])]
    obtain ⟨n, hn1, hn2, hn3, hn4, hn5⟩ :=
      generateUniqueNameGo_spec existing base 1000 1 (by omega) (by omega) (by omega)
        (by intro m hm1 hm; omega)
    exact ⟨n, hn1, hn2, hn3, hn4, by rw [hn3]; exact hn5⟩

/-- Witness for C7 at concrete inputs: with no search results the base name
is returned unchanged, and with the base name taken the characterization
produces a concrete free candidate. -/
theorem C7_generateUniqueName_characterization_witness :
    generateUniqueName [] [98] = [98] ∧
      ∃ n, 1 ≤ n ∧ n ≤ 1001 ∧
        generateUniqueName [[98]] [98] = candidateName [98] n ∧
        (∀ m, 1 ≤ m → m < n → candidateName [98] m ∈ [[98]]) ∧
        (generateUniqueName [[98]] [98] ∈ [[98]] → n = 1001) :=
  ⟨(C7_generateUniqueName_characterization [] [98]).1 (by decide),
   (C7_generateUniqueName_characterization [[98]] [98]).2 (by decide)⟩

/-- C10.  When the duplicate-name search fails with any error other than
HTTP 404, `searchContactsByName` returns the empty list instead of
propagating the error, and `generateUniqueName` run against that empty
result list returns its candidate name unchanged — the uniqueness check is
skipped and never blocks the save. -/
theorem C10_name_search_failure_skips_uniqueness (status : Option Nat) (base : JSStr)
    (h : status ≠ some 404) :
    searchContactsByName (.err status) = [] ∧
      generateUniqueName (searchContactsByName (.err status)) base = base := by
  have hempty : searchContactsByName (HttpOutcome.err status) = ([] : List JSStr) := by
    show (if status = some 404 then [] else []) = ([] : List JSStr)
    split <;> rfl
  refine ⟨hempty, ?_⟩
  rw [hempty]
  unfold generateUniqueName
  rw [if_pos]
  rfl

/-- Witness for C10 at a concrete non-404 error. -/
theorem C10_name_search_failure_skips_uniqueness_witness :
    searchContactsByName (.err (some 500)) = [] ∧
      generateUniqueName (searchContactsByName (.err (some 500))) [98] = [98] :=
  C10_name_search_failure_skips_uniqueness (some 500) [98] (by decide)

/-- C9.  `run` never leaves the single-flight flag in a different state than
it found it: an invocation that passes the guard resets `isRunning` to
`false` before returning for every body behaviour, including a body that
throws (the error is caught: the result type carries it as a value, never as
an exception), and an invocation skipped by the guard changes nothing.  A
single failed run therefore cannot leave the guard permanently set. -/
theorem C9_run_resets_single_flight (s : RunSt) (initStep : Nat → Nat)
    (body : Nat → Nat × Option Nat) :
    (run s initStep body).1.isRunning = s.isRunning ∧
    (s.isRunning = false → (run s initStep body).1.isRunning = false) ∧
    (s.isRunning = true → run s initStep body = (s, .skipped)) := by
  unfold run
  by_cases h : s.isRunning = true
  · rw [if_pos h]
    refine ⟨rfl, ?_, fun _ => rfl⟩
    intro hf
    rw [hf] at h
    exact absurd h Bool.false_ne_true
  · rw [if_neg h]
    have hf : s.isRunning = false := by simpa using h
    rcases hbr : (body (initStep s.dbState)).2 with _ | e
    · simp [hbr, hf]
    · simp [hbr, hf]

/-- Witness for C9: a body that throws still leaves the flag cleared, and a
trigger during a running pass is a pure no-op. -/
theorem C9_run_resets_single_flight_witness :
    (run ⟨false, 0⟩ (fun d => d) (fun d => (d + 1, some 7))).1.isRunning = false ∧
      run ⟨true, 0⟩ (fun d => d) (fun d => (d, none)) = (⟨true, 0⟩, .skipped) :=
  ⟨(C9_run_resets_single_flight ⟨false, 0⟩ (fun d => d) (fun d => (d + 1, some 7))).2.1 rfl,
   (C9_run_resets_single_flight ⟨true, 0⟩ (fun d => d) (fun d => (d, none))).2.2 rfl⟩

theorem decryptTokenField_none (decrypt : JSStr → Option JSStr) (stored : JSStr)
    (h : decrypt stored = none) : decryptTokenField decrypt stored = stored := by
  unfold decryptTokenField
  by_cases hnil : stored = []
  · rw [if_pos hnil]
  · rw [if_neg hnil, h]

/-- C8 counterexample: with a decrypt that always fails (returns null), the
account list still carries the stored ciphertext in its token field, and
`createGoogleServices` uses exactly that stored (undecrypted) value as the
Directory Client access token — contradicting the claim that the stored
value is not used as a token after a failed decrypt. -/
theorem C8_decrypt_fallback_counterexample :
    getAllCustomerAccounts (fun _ => none) [⟨1, 2, [99], [100]⟩] = [⟨1, 2, [99], [100]⟩] ∧
      serviceAccessToken ⟨1, 2, [99], [100]⟩ = [99] :=
  ⟨rfl, rfl⟩

/-- C8 amended.  A failed decrypt does not crash customer processing — the
account loader is a total function with no error channel — but instead of
treating the credential as unusable it falls back to the stored value itself
(`decrypted || stored`), which is then used as the Directory Client access
token. -/
theorem C8_decrypt_failure_uses_stored_value (decrypt : JSStr → Option JSStr)
    (r : AccountRow) (h : decrypt r.accessToken = none) :
    ∃ rs, getAllCustomerAccounts decrypt [r] = [rs] ∧
      serviceAccessToken rs = r.accessToken := by
  unfold getAllCustomerAccounts
  refine ⟨_, rfl, ?_⟩
  show decryptTokenField decrypt r.accessToken = r.accessToken
  exact decryptTokenField_none decrypt r.accessToken h

/-- Witness for C8 amended at a concrete failing decrypt. -/
theorem C8_decrypt_failure_uses_stored_value_witness :
    ∃ rs, getAllCustomerAccounts (fun _ => none) [⟨1, 2, [99], [100]⟩] = [rs] ∧
      serviceAccessToken rs = (⟨1, 2, [99], [100]⟩ : AccountRow).accessToken :=
  C8_decrypt_failure_uses_stored_value (fun _ => none) ⟨1, 2, [99], [100]⟩ rfl

/-- C3 counterexample: raise a critical `TOKEN_INVALID` (which marks the row
notified), then record a successful save.  The success nulls
`last_error_type` but leaves `error_notified` set — the claim that `notified`
is cleared to false exactly when a save succeeds (and that it is true only
for the current error kind, here null) fails on this state. -/
theorem C3_error_state_counterexample :
    logSaveAttemptSuccess (sendErrorNotification none .tokenInvalid [5]).1 =
      some ⟨none, none, true, true⟩ := rfl

/-- C3 amended.  A successful save or existence confirmation nulls the stored
error kind and message and marks tokens valid, but leaves `error_notified`
unchanged; the notification dedup nevertheless resets, because the dedup test
compares the stored kind, which is now null — so the next critical failure of
any kind attempts exactly one new delivery. -/
theorem C3_success_clears_kind_not_notified (r : CsRow) :
    logSaveAttemptSuccess (some r) =
      some { lastError := none, lastErrorType := none, errorNotified := r.errorNotified,
             hasValidTokens := true } ∧
    (∀ k, alreadyNotifiedCheck (logSaveAttemptSuccess (some r)) k = false) ∧
    (∀ k msg, isCriticalError k = true →
      (sendErrorNotification (logSaveAttemptSuccess (some r)) k msg).2 = 1) := by
  refine ⟨rfl, ?_, ?_⟩
  · intro k
    simp [logSaveAttemptSuccess, alreadyNotifiedCheck]
  · intro k msg hk
    unfold sendErrorNotification
    rw [if_neg (by simp [hk])]
    rw [if_neg (by simp [logSaveAttemptSuccess, alreadyNotifiedCheck])]

/-- Witness for C3 amended: after the success, a repeated `TOKEN_INVALID`
failure attempts a delivery again. -/
theorem C3_success_clears_kind_not_notified_witness :
    (sendErrorNotification
        (logSaveAttemptSuccess (some ⟨some [7], some .tokenInvalid, true, false⟩))
        .tokenInvalid [9]).2 = 1 :=
  (C3_success_clears_kind_not_notified ⟨some [7], some .tokenInvalid, true, false⟩).2.2
    .tokenInvalid [9] rfl

/-- C4 counterexample: a customer whose stored state is
(`TOKEN_INVALID`, notified) then fails with the different kind
`RATE_LIMIT_TEMPORARY`: the claim requires exactly one new Notifier call for
a different kind, but the code attempts zero deliveries because the new kind
is not critical. -/
theorem C4_notification_dedup_counterexample :
    (sendErrorNotification (some ⟨some [7], some .tokenInvalid, true, false⟩)
        .rateLimitTemporary [8]).2 = 0 ∧
      ErrKind.rateLimitTemporary ≠ ErrKind.tokenInvalid :=
  ⟨rfl, by decide⟩

/-- C4 amended.  With stored state (kind `k`, notified): a repeated failure
of the same kind attempts zero deliveries; a failure of a different
*critical* kind attempts exactly one; a failure of a non-critical kind
attempts zero (it only overwrites the row with notified = false); and
immediately repeating any critical kind after its own delivery attempts zero
— so the operator is notified at most once per error kind while that kind
remains the stored kind (not, as claimed, until a success clears the state:
the dedup only remembers the most recent kind). -/
theorem C4_notification_dedup_amended (r : CsRow) (k k2 : ErrKind) (msg : JSStr)
    (hr : r.lastErrorType = some k) (hn : r.errorNotified = true) :
    (k2 = k → (sendErrorNotification (some r) k2 msg).2 = 0) ∧
    (k2 ≠ k → isCriticalError k2 = true → (sendErrorNotification (some r) k2 msg).2 = 1) ∧
    (isCriticalError k2 = false → (sendErrorNotification (some r) k2 msg).2 = 0) ∧
    (isCriticalError k2 = true →
      (sendErrorNotification (sendErrorNotification (some r) k2 msg).1 k2 msg).2 = 0) := by
  refine ⟨?_, ?_, ?_, ?_⟩
  · intro hkk
    subst hkk
    unfold sendErrorNotification
    by_cases hc : isCriticalError k2 = true
    · rw [if_neg (by simp [hc])]
      rw [if_pos (by simp [alreadyNotifiedCheck, hr, hn])]
    · rw [if_pos (by simpa using hc)]
  · intro hne hc
    unfold sendErrorNotification
    rw [if_neg (by simp [hc])]
    rw [if_neg (by simp [alreadyNotifiedCheck, hr, hn]; intro he; exact absurd he.symm hne)]
  · intro hc
    unfold sendErrorNotification
    rw [if_pos (by simpa using hc)]
  · intro hc
    by_cases halready : alreadyNotifiedCheck (some r) k2 = true
    · have hst : (sendErrorNotification (some r) k2 msg).1 = some r := by
        unfold sendErrorNotification
        rw [if_neg (by simp [hc]), if_pos halready]
      rw [hst]
      unfold sendErrorNotification
      rw [if_neg (by simp [hc]), if_pos halready]
    · have hst : (sendErrorNotification (some r) k2 msg).1 =
          updateCustomerError (some r) k2 msg true := by
        unfold sendErrorNotification
        rw [if_neg (by simp [hc]), if_neg halready]
      rw [hst]
      unfold sendErrorNotification
      rw [if_neg (by simp [hc])]
      rw [if_pos (show alreadyNotifiedCheck (updateCustomerError (some r) k2 msg true) k2 = true
        by simp [alreadyNotifiedCheck, updateCustomerError])]

/-- Witness for C4 amended at the concrete state (TOKEN_INVALID, notified):
a `PERMISSION_DENIED` failure attempts one delivery, and repeating it
attempts none. -/
theorem C4_notification_dedup_amended_witness :
    (sendErrorNotification (some ⟨some [7], some .tokenInvalid, true, false⟩)
        .permissionDenied [8]).2 = 1 ∧
    (sendErrorNotification
        (sendErrorNotification (some ⟨some [7], some .tokenInvalid, true, false⟩)
          .permissionDenied [8]).1 .permissionDenied [8]).2 = 0 :=
  ⟨(C4_notification_dedup_amended ⟨some [7], some .tokenInvalid, true, false⟩
      .tokenInvalid .permissionDenied [8] rfl rfl).2.1 (by decide) (by decide),
   (C4_notification_dedup_amended ⟨some [7], some .tokenInvalid, true, false⟩
      .tokenInvalid .permissionDenied [8] rfl rfl).2.2.2 (by decide)⟩

/-- C1 counterexample: one customer with two campaign tables; the only
contact of the first table fails with `RATE_LIMIT_TEMPORARY` (retry-after 30
seconds) at time 1000.  The resume timestamp is set to 31000, yet the run
continues with the second table: the existence search and save attempt for
its contact appear in the Directory Client call trace of the same run, at a
time before the resume timestamp — the `break` leaves only the inner
per-contact loop, not the outer per-table loop. -/
theorem C1_rate_limit_counterexample :
    processCustomer 1000 none [⟨1, some 10⟩]
        (fun t _ => if t = 1 then .saveFail (.rateLimit 30) else .saveOk true)
        [⟨1, [101]⟩, ⟨2, [102]⟩] =
      (.processed,
        ⟨[.capacityQuery 1, .capacityQuery 1, .existenceSearch 1 101, .saveAttempt 1 101,
          .existenceSearch 2 102, .saveAttempt 2 102],
         some 31000, [.rateLimitTemporary], 1, 0, 1⟩) ∧
      1000 < 31000 :=
  ⟨rfl, by decide⟩

theorem runTable_cons_break (outcome : Nat → Nat → ContactOutcome) (now tname c : Nat)
    (rest : List Nat) (st : LoopSt) (hc : isBreakingOutcome (outcome tname c) = true) :
    runTable outcome now tname (c :: rest) st = runTable outcome now tname [c] st := by
  rcases ho : outcome tname c with _ | b | e
  · rw [ho] at hc; simp [isBreakingOutcome] at hc
  · rw [ho] at hc; simp [isBreakingOutcome] at hc
  · cases e with
    | rateLimit ra => simp only [runTable, ho]
    | contactLimit => simp only [runTable, ho]
    | tokenInvalid => simp only [runTable, ho]
    | permissionDenied => simp only [runTable, ho]
    | unknown => rw [ho] at hc; simp [isBreakingOutcome] at hc

theorem runTable_stops_on_break (outcome : Nat → Nat → ContactOutcome) (now tname : Nat) :
    ∀ (pre : List Nat) (c : Nat) (rest : List Nat) (st : LoopSt),
      (∀ x ∈ pre, isBreakingOutcome (outcome tname x) = false) →
      isBreakingOutcome (outcome tname c) = true →
      runTable outcome now tname (pre ++ c :: rest) st =
        runTable outcome now tname (pre ++ [c]) st := by
  intro pre
  induction pre with
  | nil =>
    intro c rest st _ hc
    simpa using runTable_cons_break outcome now tname c rest st hc
  | cons p ps ih =>
    intro c rest st hpre hc
    have hp : isBreakingOutcome (outcome tname p) = false := hpre p (by simp)
    have hps : ∀ x ∈ ps, isBreakingOutcome (outcome tname x) = false :=
      fun x hx => hpre x (by simp [hx])
    simp only [List.cons_append, runTable]
    rcases hop : outcome tname p with _ | b | e
    · exact ih c rest _ hps hc
    · exact ih c rest _ hps hc
    · cases e with
      | rateLimit ra => rfl
      | contactLimit => rfl
      | tokenInvalid => rfl
      | permissionDenied => rfl
      | unknown => exact ih c rest _ hps hc

theorem runTable_rateLimit_resume (outcome : Nat → Nat → ContactOutcome) (now tname : Nat) :
    ∀ (pre : List Nat) (c : Nat) (st : LoopSt) (ra : Nat),
      (∀ x ∈ pre, isBreakingOutcome (outcome tname x) = false) →
      outcome tname c = .saveFail (.rateLimit ra) →
      (runTable outcome now tname (pre ++ [c]) st).resumeAt =
        some (now + (if ra = 0 then 60 else ra) * 1000) := by
  intro pre
  induction pre with
  | nil =>
    intro c st ra _ ho
    simp [runTable, ho]
  | cons p ps ih =>
    intro c st ra hpre ho
    have hp : isBreakingOutcome (outcome tname p) = false := hpre p (by simp)
    have hps : ∀ x ∈ ps, isBreakingOutcome (outcome tname x) = false :=
      fun x hx => hpre x (by simp [hx])
    simp only [List.cons_append, runTable]
    rcases hop : outcome tname p with _ | b | e
    · exact ih c _ ra hps ho
    · exact ih c _ ra hps ho
    · cases e with
      | rateLimit ra2 => rw [hop] at hp; simp [isBreakingOutcome] at hp
      | contactLimit => rw [hop] at hp; simp [isBreakingOutcome] at hp
      | tokenInvalid => rw [hop] at hp; simp [isBreakingOutcome] at hp
      | permissionDenied => rw [hop] at hp; simp [isBreakingOutcome] at hp
      | unknown => exact ih c _ ra hps ho

/-- C1 amended.  A `RATE_LIMIT_TEMPORARY` failure sets the customer's
in-memory resume timestamp to now plus the retry-after duration (in
milliseconds, defaulting to 60 seconds when the header value is absent/zero)
and stops processing the remaining contacts of the *current table only* —
the run goes on to later tables (see the counterexample).  Once the resume
timestamp is `T` (nonzero), any later `processCustomer` invocation at a time
before `T` returns `rate_limited` immediately with an empty Directory Client
call trace. -/
theorem C1_rate_limit_amended (outcome : Nat → Nat → ContactOutcome) :
    (∀ (now T : Nat) (accounts : List GAccount) (tables : List CTable),
      T ≠ 0 → now < T →
      processCustomer now (some T) accounts outcome tables =
        (.rateLimited T, initLoopSt (some T) [] [])) ∧
    (∀ (now tname : Nat) (pre : List Nat) (c : Nat) (rest : List Nat) (st : LoopSt) (ra : Nat),
      (∀ x ∈ pre, isBreakingOutcome (outcome tname x) = false) →
      outcome tname c = .saveFail (.rateLimit ra) →
      runTable outcome now tname (pre ++ c :: rest) st =
          runTable outcome now tname (pre ++ [c]) st ∧
        (runTable outcome now tname (pre ++ [c]) st).resumeAt =
          some (now + (if ra = 0 then 60 else ra) * 1000)) := by
  constructor
  · intro now T accounts tables hT hnow
    unfold processCustomer
    rw [if_pos (by simp [rateLimitActive, hT, hnow])]
    rfl
  · intro now tname pre c rest st ra hpre ho
    refine ⟨?_, runTable_rateLimit_resume outcome now tname pre c st ra hpre ho⟩
    exact runTable_stops_on_break outcome now tname pre c rest st hpre
      (by rw [ho]; rfl)

/-- Witness for C1 amended at concrete inputs: a later run before the resume
time makes no Directory Client call, and a rate-limited head contact stops
its own table's remaining contacts while setting the resume timestamp. -/
theorem C1_rate_limit_amended_witness :
    processCustomer 5 (some 10) [] (fun _ _ => ContactOutcome.saveFail (.rateLimit 30)) [] =
      (.rateLimited 10, initLoopSt (some 10) [] []) ∧
    runTable (fun _ _ => ContactOutcome.saveFail (.rateLimit 30)) 7 1 ([] ++ 101 :: [102])
        (initLoopSt none [] []) =
      runTable (fun _ _ => ContactOutcome.saveFail (.rateLimit 30)) 7 1 ([] ++ [101])
        (initLoopSt none [] []) ∧
    (runTable (fun _ _ => ContactOutcome.saveFail (.rateLimit 30)) 7 1 ([] ++ [101])
        (initLoopSt none [] [])).resumeAt = some (7 + (if 30 = 0 then 60 else 30) * 1000) :=
  ⟨(C1_rate_limit_amended (fun _ _ => ContactOutcome.saveFail (.rateLimit 30))).1
      5 10 [] [] (by decide) (by decide),
   ((C1_rate_limit_amended (fun _ _ => ContactOutcome.saveFail (.rateLimit 30))).2
      7 1 [] 101 [102] (initLoopSt none [] []) 30 (by simp) rfl).1,
   ((C1_rate_limit_amended (fun _ _ => ContactOutcome.saveFail (.rateLimit 30))).2
      7 1 [] 101 [102] (initLoopSt none [] []) 30 (by simp) rfl).2⟩

/-- C2 counterexample: a customer with a single account whose capacity query
returns null ("could not determine").  No account reports a known count at
all, let alone one ≥ 25,000 — yet `processCustomer` raises the critical
`CONTACT_LIMIT_MAX` notification and stops, because `allAccountsFull` starts
true and only a *known* count under the ceiling clears it: a null count is
effectively assumed over-limit, contrary to the claim. -/
theorem C2_contact_limit_counterexample :
    processCustomer 0 none [⟨1, none⟩] (fun _ _ => .saveOk true) [] =
      (.contactLimitMax 0, ⟨[.capacityQuery 1], none, [.contactLimitMax], 0, 0, 0⟩) ∧
      ¬ specEveryAccountFull [⟨1, none⟩] := by
  refine ⟨rfl, ?_⟩
  rintro ⟨-, hall⟩
  exact hall ⟨1, none⟩ (by simp)

theorem capacityScan_foldl_flag (counts : List (Option Nat)) : ∀ (t : Nat) (b : Bool),
    (counts.foldl
      (fun acc c =>
        match c with
        | some n => (acc.1 + n, if n < 25000 then false else acc.2)
        | none => acc)
      (t, b)).2 =
    (b && counts.all (fun c =>
      match c with
      | some n => decide (25000 ≤ n)
      | none => true)) := by
  induction counts with
  | nil => intro t b; simp
  | cons c rest ih =>
    intro t b
    cases c with
    | none => simpa using ih t b
    | some n =>
      simp only [List.foldl_cons, List.all_cons]
      rw [ih]
      by_cases hn : n < 25000
      · simp [if_pos hn, Nat.not_le.mpr hn]
      · have h25 : 25000 ≤ n := Nat.le_of_not_lt hn
        simp [if_neg hn, h25]

theorem capacityScan_flag (counts : List (Option Nat)) :
    (capacityScan counts).2 =
      counts.all (fun c =>
        match c with
        | some n => decide (25000 ≤ n)
        | none => true) := by
  unfold capacityScan
  simpa using capacityScan_foldl_flag counts 0 true

theorem capacityScan_flag_iff (accounts : List GAccount) :
    (capacityScan (accounts.map (fun a => a.contactCount))).2 = true ↔
      ∀ a ∈ accounts, ∀ n, a.contactCount = some n → 25000 ≤ n := by
  rw [capacityScan_flag, List.all_eq_true]
  constructor
  · intro h a ha n hn
    have := h a.contactCount (List.mem_map.mpr ⟨a, ha, rfl⟩)
    rw [hn] at this
    simpa using this
  · intro h c hc
    rcases List.mem_map.mp hc with ⟨a, ha, hac⟩
    cases hcc : a.contactCount with
    | none => rw [← hac, hcc]
    | some n =>
      rw [← hac, hcc]
      simpa using h a ha n hcc

/-- C2 amended.  With the rate-limit guard passed and at least one account,
`CONTACT_LIMIT_MAX` is raised and all per-contact work is skipped exactly
when *no account reports a known count under 25,000* — equivalently, every
account that reports a known count reports one ≥ 25,000; accounts whose
capacity query returns null do not block the verdict (they are effectively
counted as full, unlike what the claim states).  When the notification is
raised, the call trace holds only the capacity queries: no existence search
and no save attempt is made. -/
theorem C2_contact_limit_amended (now : Nat) (accounts : List GAccount)
    (outcome : Nat → Nat → ContactOutcome) (tables : List CTable) (hne : accounts ≠ []) :
    ((∃ t, (processCustomer now none accounts outcome tables).1 = .contactLimitMax t) ↔
      ∀ a ∈ accounts, ∀ n, a.contactCount = some n → 25000 ≤ n) ∧
    (∀ t st, processCustomer now none accounts outcome tables = (.contactLimitMax t, st) →
      st.calls = accounts.map (fun a => DirCall.capacityQuery a.email) ∧
      st.notifs = [.contactLimitMax] ∧
      ∀ tb c2, DirCall.existenceSearch tb c2 ∉ st.calls ∧ DirCall.saveAttempt tb c2 ∉ st.calls) := by
  have hguard : rateLimitActive none now = false := rfl
  unfold processCustomer
  rw [if_neg (by simp [hguard]), if_neg hne]
  by_cases hfull : (capacityScan (accounts.map (fun a => a.contactCount))).2 = true ∧
      0 < accounts.length
  · rw [if_pos hfull]
    constructor
    · constructor
      · intro _
        exact (capacityScan_flag_iff accounts).mp hfull.1
      · intro _
        exact ⟨_, rfl⟩
    · intro t st hst
      have hst2 : st = initLoopSt none (accounts.map (fun a => DirCall.capacityQuery a.email))
          [.contactLimitMax] := (Prod.mk.injEq _ _ _ _).mp hst |>.2.symm
      subst hst2
      refine ⟨rfl, rfl, ?_⟩
      intro tb c2
      constructor
      · intro hmem
        simp only [initLoopSt, List.mem_map] at hmem
        rcases hmem with ⟨a, _, ha⟩
        cases ha
      · intro hmem
        simp only [initLoopSt, List.mem_map] at hmem
        rcases hmem with ⟨a, _, ha⟩
        cases ha
  · rw [if_neg hfull]
    have hflag : ¬ (capacityScan (accounts.map (fun a => a.contactCount))).2 = true := by
      intro h
      exact hfull ⟨h, List.length_pos.mpr hne⟩
    constructor
    · constructor
      · intro ⟨t, ht⟩
        exfalso
        rcases hbest : getBestAccountForSaving accounts with _ | a
        · rw [hbest] at ht
          simp at ht
        · rw [hbest] at ht
          simp at ht
      · intro hall
        exact absurd ((capacityScan_flag_iff accounts).mpr hall) hflag
    · intro t st hst
      exfalso
      rcases hbest : getBestAccountForSaving accounts with _ | a
      · rw [hbest] at hst
        simp at hst
      · rw [hbest] at hst
        simp [Prod.ext_iff] at hst

/-- Witness for C2 amended: one account with a known count of 30,000 raises
the limit status, and its state shows capacity queries only. -/
theorem C2_contact_limit_amended_witness :
    (∃ t, (processCustomer 0 none [⟨1, some 30000⟩] (fun _ _ => ContactOutcome.saveOk true)
        []).1 = .contactLimitMax t) ∧
    ∀ tb c2, DirCall.existenceSearch tb c2 ∉
        (processCustomer 0 none [⟨1, some 30000⟩] (fun _ _ => ContactOutcome.saveOk true)
          []).2.calls := by
  have h := C2_contact_limit_amended 0 [⟨1, some 30000⟩]
    (fun _ _ => ContactOutcome.saveOk true) [] (by simp)
  constructor
  · refine h.1.mpr ?_
    intro a ha n hn
    simp only [List.mem_singleton] at ha
    subst ha
    simp only at hn
    cases hn
    omega
  · intro tb c2
    exact ((h.2 30000 _ rfl).2.2 tb c2).1

theorem isPre_refl (s : JSStr) : isPre s s = true := by
  induction s with
  | nil => rfl
  | cons a t ih => simp [isPre, ih]

theorem containsSub_refl (s : JSStr) : containsSub s s = true := by
  rw [containsSub.eq_def, if_pos (isPre_refl s)]

theorem getOrCreateContactGroup_stable (d : Directory) (gname : JSStr) (d2 : Directory)
    (hg : d2.groups = (getOrCreateContactGroup d gname).2.groups) :
    getOrCreateContactGroup d2 gname = ((getOrCreateContactGroup d gname).1, d2) := by
  rcases hfind : d.groups.find?
      (fun g => decide (g.gname = gname) || decide (g.formattedName = gname)) with _ | g
  · have h1 : getOrCreateContactGroup d gname =
        (⟨d.nextId, gname, gname⟩,
          { d with groups := d.groups ++ [⟨d.nextId, gname, gname⟩], nextId := d.nextId + 1 }) := by
      unfold getOrCreateContactGroup
      rw [hfind]
    rw [h1] at hg ⊢
    simp only at hg
    unfold getOrCreateContactGroup
    rw [hg, List.find?_append, hfind]
    simp [List.find?_cons]
  · have h1 : getOrCreateContactGroup d gname = (g, d) := by
      unfold getOrCreateContactGroup
      rw [hfind]
    rw [h1] at hg ⊢
    simp only at hg
    unfold getOrCreateContactGroup
    rw [hg, hfind]

theorem searchContactByPhone_after_create (d dN : Directory) (N : DPerson) (phone : JSStr)
    (hps : dN.persons = d.persons ++ [N]) (hph : N.phones = [phone])
    (hnone : searchContactByPhone d phone = none) :
    searchContactByPhone dN phone = some N := by
  simp only [searchContactByPhone] at hnone ⊢
  rw [hps]
  have hNq : personMatchesQ (digitsOnly phone) N = true := by
    unfold personMatchesQ
    rw [hph]
    simp [containsSub_refl]
  have hN9 : personMatches9 (digitsOnly phone) N = true := by
    unfold personMatches9
    rw [hph]
    simp
  rw [List.filter_append]
  have hfN : List.filter (personMatchesQ (digitsOnly phone)) [N] = [N] := by
    simp [hNq]
  rw [hfN]
  have hne : ¬(List.filter (personMatchesQ (digitsOnly phone)) d.persons ++ [N] = [] ∧
      9 < (digitsOnly phone).length) := by
    rintro ⟨habs, -⟩
    simpa using congrArg List.length habs
  rw [if_neg hne, List.find?_append]
  have hfind9 : (List.filter (personMatchesQ (digitsOnly phone)) d.persons).find?
      (personMatches9 (digitsOnly phone)) = none := by
    by_cases hres : List.filter (personMatchesQ (digitsOnly phone)) d.persons = []
    · rw [hres]; rfl
    · rw [if_neg (by rintro ⟨h1, -⟩; exact hres h1)] at hnone
      exact hnone
  rw [hfind9, Option.none_or]
  simp [List.find?_cons, hN9]

theorem memUpd_phones (pid gid : Nat) (p : DPerson) :
    (if p.rid = pid then { p with memberOf := gid :: p.memberOf } else p).phones = p.phones := by
  by_cases h : p.rid = pid <;> simp [h]

theorem searchContactByPhone_map_update (d : Directory) (pid gid : Nat) (phone : JSStr) :
    searchContactByPhone (addContactToGroup d pid gid) phone =
      (searchContactByPhone d phone).map
        (fun p => if p.rid = pid then { p with memberOf := gid :: p.memberOf } else p) := by
  unfold addContactToGroup
  simp only [searchContactByPhone]
  have hpq : ∀ (q : JSStr) (p : DPerson),
      personMatchesQ q (if p.rid = pid then { p with memberOf := gid :: p.memberOf } else p) =
        personMatchesQ q p := by
    intro q p
    unfold personMatchesQ
    rw [memUpd_phones]
  have hp9 : ∀ (q : JSStr) (p : DPerson),
      personMatches9 q (if p.rid = pid then { p with memberOf := gid :: p.memberOf } else p) =
        personMatches9 q p := by
    intro q p
    unfold personMatches9
    rw [memUpd_phones]
  have hfilter : ∀ (q : JSStr),
      List.filter (personMatchesQ q)
        (d.persons.map (fun p => if p.rid = pid then { p with memberOf := gid :: p.memberOf } else p)) =
      (d.persons.filter (personMatchesQ q)).map
        (fun p => if p.rid = pid then { p with memberOf := gid :: p.memberOf } else p) := by
    intro q
    rw [List.filter_map]
    congr 1
    exact List.filter_congr (fun x _ => by simp only [Function.comp]; rw [hpq])
  have hfind : ∀ (q : JSStr) (l : List DPerson),
      (l.map (fun p => if p.rid = pid then { p with memberOf := gid :: p.memberOf } else p)).find?
          (personMatches9 q) =
        (l.find? (personMatches9 q)).map
          (fun p => if p.rid = pid then { p with memberOf := gid :: p.memberOf } else p) := by
    intro q l
    rw [List.find?_map]
    have hcomp : (personMatches9 q ∘
        fun p => if p.rid = pid then { p with memberOf := gid :: p.memberOf } else p) =
          personMatches9 q := by
      funext p
      simp only [Function.comp]
      rw [hp9]
    rw [hcomp]
  rw [hfilter, hfilter]
  by_cases hcond : d.persons.filter (personMatchesQ (digitsOnly phone)) = [] ∧
      9 < (digitsOnly phone).length
  · rw [if_pos (by rw [List.map_eq_nil]; exact hcond), if_pos hcond, hfind]
  · rw [if_neg (by rw [List.map_eq_nil]; exact hcond), if_neg hcond, hfind]

theorem saveContactWithLabel_existing_member (dateSuffix : JSStr) (dX : Directory)
    (nm phone lbl defaultName : JSStr) (g : DGroup) (q : DPerson)
    (hg : getOrCreateContactGroup dX (formatLabelName dateSuffix lbl) = (g, dX))
    (hq : searchContactByPhone dX phone = some q)
    (hm : isMemberB q g.rid = true) :
    saveContactWithLabel dateSuffix dX nm phone lbl defaultName = ((.existed, some q), dX) := by
  simp only [saveContactWithLabel]
  rw [hg]
  simp only
  rw [hq]
  simp only [hm, if_pos]

theorem saveContactWithLabel_created_case (dateSuffix : JSStr) (d : Directory)
    (nm phone lbl defaultName : JSStr) (g : DGroup) (d1 : Directory)
    (hgd : getOrCreateContactGroup d (formatLabelName dateSuffix lbl) = (g, d1))
    (hs : searchContactByPhone d1 phone = none) :
    saveContactWithLabel dateSuffix d nm phone lbl defaultName =
      ((.created, some (createContact d1
          (generateUniqueName
            (searchNamesInDirectory d1 (sanitizeName dateSuffix defaultName nm))
            (sanitizeName dateSuffix defaultName nm))
          phone (some g.rid)).1),
        (createContact d1
          (generateUniqueName
            (searchNamesInDirectory d1 (sanitizeName dateSuffix defaultName nm))
            (sanitizeName dateSuffix defaultName nm))
          phone (some g.rid)).2) := by
  simp only [saveContactWithLabel]
  rw [hgd]
  simp only
  rw [hs]

theorem saveContactWithLabel_existed_case (dateSuffix : JSStr) (d : Directory)
    (nm phone lbl defaultName : JSStr) (g : DGroup) (d1 : Directory) (p : DPerson)
    (hgd : getOrCreateContactGroup d (formatLabelName dateSuffix lbl) = (g, d1))
    (hs : searchContactByPhone d1 phone = some p) :
    saveContactWithLabel dateSuffix d nm phone lbl defaultName =
      ((.existed, some p),
        if isMemberB p g.rid then d1 else addContactToGroup d1 p.rid g.rid) := by
  simp only [saveContactWithLabel]
  rw [hgd]
  simp only
  rw [hs]

/-- C5.  Calling `saveContactWithLabel` twice with the same phone number
under the same label never creates a second directory entry: whatever the
first call did (created the contact, or found it and idempotently ensured
label membership), the second call finds the existing contact by phone,
finds it already a member of the label, performs no creation and no
membership modification, and returns status `existed` with the directory
state unchanged. -/
theorem C5_second_save_is_existed (dateSuffix : JSStr) (d : Directory)
    (nm phone lbl defaultName : JSStr) :
    (saveContactWithLabel dateSuffix
        (saveContactWithLabel dateSuffix d nm phone lbl defaultName).2
        nm phone lbl defaultName).1.1 = SaveStatus.existed ∧
    (saveContactWithLabel dateSuffix
        (saveContactWithLabel dateSuffix d nm phone lbl defaultName).2
        nm phone lbl defaultName).2 =
      (saveContactWithLabel dateSuffix d nm phone lbl defaultName).2 := by
  rcases hgd : getOrCreateContactGroup d (formatLabelName dateSuffix lbl) with ⟨g, d1⟩
  rcases hs : searchContactByPhone d1 phone with _ | p
  · rw [saveContactWithLabel_created_case dateSuffix d nm phone lbl defaultName g d1 hgd hs]
    have hgroups : (createContact d1
        (generateUniqueName
          (searchNamesInDirectory d1 (sanitizeName dateSuffix defaultName nm))
          (sanitizeName dateSuffix defaultName nm))
        phone (some g.rid)).2.groups =
        (getOrCreateContactGroup d (formatLabelName dateSuffix lbl)).2.groups := by
      rw [hgd]
      rfl
    have hg2 := getOrCreateContactGroup_stable d (formatLabelName dateSuffix lbl) _ hgroups
    rw [hgd] at hg2
    have hs2 : searchContactByPhone (createContact d1
        (generateUniqueName
          (searchNamesInDirectory d1 (sanitizeName dateSuffix defaultName nm))
          (sanitizeName dateSuffix defaultName nm))
        phone (some g.rid)).2 phone =
        some (createContact d1
          (generateUniqueName
            (searchNamesInDirectory d1 (sanitizeName dateSuffix defaultName nm))
            (sanitizeName dateSuffix defaultName nm))
          phone (some g.rid)).1 :=
      searchContactByPhone_after_create d1 _ _ phone rfl rfl hs
    have hm : isMemberB (createContact d1
        (generateUniqueName
          (searchNamesInDirectory d1 (sanitizeName dateSuffix defaultName nm))
          (sanitizeName dateSuffix defaultName nm))
        phone (some g.rid)).1 g.rid = true := by
      simp [createContact, isMemberB]
    rw [saveContactWithLabel_existing_member dateSuffix _ nm phone lbl defaultName g _ hg2 hs2 hm]
    exact ⟨rfl, rfl⟩
  · rw [saveContactWithLabel_existed_case dateSuffix d nm phone lbl defaultName g d1 p hgd hs]
    by_cases hm : isMemberB p g.rid = true
    · rw [if_pos hm]
      have hgroups : d1.groups =
          (getOrCreateContactGroup d (formatLabelName dateSuffix lbl)).2.groups := by
        rw [hgd]
      have hg2 := getOrCreateContactGroup_stable d (formatLabelName dateSuffix lbl) d1 hgroups
      rw [hgd] at hg2
      rw [saveContactWithLabel_existing_member dateSuffix d1 nm phone lbl defaultName g p hg2 hs hm]
      exact ⟨rfl, rfl⟩
    · rw [if_neg hm]
      have hgroups : (addContactToGroup d1 p.rid g.rid).groups =
          (getOrCreateContactGroup d (formatLabelName dateSuffix lbl)).2.groups := by
        rw [hgd]
        rfl
      have hg2 := getOrCreateContactGroup_stable d (formatLabelName dateSuffix lbl) _ hgroups
      rw [hgd] at hg2
      have hs2 : searchContactByPhone (addContactToGroup d1 p.rid g.rid) phone =
          some (if p.rid = p.rid then { p with memberOf := g.rid :: p.memberOf } else p) := by
        rw [searchContactByPhone_map_update, hs]
        rfl
      have hm2 : isMemberB (if p.rid = p.rid then { p with memberOf := g.rid :: p.memberOf }
          else p) g.rid = true := by
        simp [isMemberB]
      rw [saveContactWithLabel_existing_member dateSuffix _ nm phone lbl defaultName g _ hg2 hs2 hm2]
      exact ⟨rfl, rfl⟩
